import Mathlib

/-!
Shallow embedding of the Lane-Week Carrier Assignment Optimizer from
`components/optimization.py` of the Carrier Tender Optimization dashboard,
together with theorems settling the specification claims about it.

Conventions of the embedding:
* a pandas row of the filtered dataset becomes a `Record`; the columns used by
  the optimizer (`Lane`, `Week Number`, `Dray SCAC(FL)`, `Base Rate`,
  `Performance_Score`, `Container Count`, `Discharged Port`, `Facility`) become
  fields, with `Performance_Score` an `Option Rat` since it may be null;
* a row of the aggregated `lane_week_carriers` data frame becomes an `Offer`;
* python float arithmetic is modelled by exact `Rat` arithmetic;
* the external CBC solve is modelled by the 0/1 integer program it is given:
  a selection `Fin offers.length → Bool` (one binary variable per row),
  the constraint set of `add_optimization_constraints`, the objective of
  `setup_optimization_objective`, and `isOptimal` as the solution concept;
  where a function merely forwards to the solver, the solver is a parameter.
-/

attribute [local semireducible] Rat.add Rat.mul Rat.inv Rat.sub Rat.ofScientific

/-- One row of the input data frame, restricted to the columns the
optimization module reads. `perfScore` is `none` when `Performance_Score`
is null. -/
structure Record where
  lane : String
  week : Int
  scac : String
  baseRate : Rat
  perfScore : Option Rat
  containerCount : Rat
  port : String
  facility : String
  deriving DecidableEq

/-- One row of the aggregated `lane_week_carriers` frame built by
`perform_optimization` / `get_optimization_results`: one row per
(lane, week, carrier), holding the first records rate and performance, the
carriers own summed volume (`Container Count`) and the merged
`Total_Lane_Volume` of the whole (lane, week) group. -/
structure Offer where
  lane : String
  week : Int
  scac : String
  baseRate : Rat
  perfScore : Rat
  containerCount : Rat
  port : String
  facility : String
  totalLaneVolume : Rat
  deriving DecidableEq

/-- One selected-assignment row of the result frame built by
`get_optimization_results`. -/
structure Assignment where
  port : String
  lane : String
  week : Int
  facility : String
  scac : String
  containerCount : Rat
  baseRate : Rat
  perfScore : Rat
  totalRate : Rat
  deriving DecidableEq

/-- The two optional `st.session_state` entries consulted by
`get_optimization_results` when its weight arguments are omitted. -/
structure SessionWeights where
  optimization_cost_weight : Option Rat
  optimization_performance_weight : Option Rat
  deriving DecidableEq

/-- The (lane, week) key of a record: the `groupby(['Lane', 'Week Number'])`
key. -/
def lwKey (r : Record) : String × Int := (r.lane, r.week)

/-- The (lane, week, carrier) key of a record: the
`groupby(['Lane', 'Week Number', 'Dray SCAC(FL)'])` key. -/
def lwcKey (r : Record) : String × Int × String := (r.lane, r.week, r.scac)

/-- Deduplication keeping first occurrences, modelling the set of group keys
produced by a pandas `groupby` (key order is irrelevant to every claim). -/
def firstDedup {α : Type} [DecidableEq α] (l : List α) : List α :=
  l.reverse.dedup.reverse

theorem mem_firstDedup {α : Type} [DecidableEq α] {a : α} {l : List α} :
    a ∈ firstDedup l ↔ a ∈ l := by
  simp [firstDedup]

theorem firstDedup_ne_nil {α : Type} [DecidableEq α] {l : List α}
    (h : l ≠ []) : firstDedup l ≠ [] := by
  obtain ⟨x, xs, rfl⟩ := List.exists_cons_of_ne_nil h
  intro hd
  have : x ∈ firstDedup (x :: xs) := mem_firstDedup.2 (List.mem_cons_self x xs)
  simp [hd] at this

/-- The distinct (lane, week) keys of a record set. -/
def lwKeysR (rs : List Record) : List (String × Int) :=
  firstDedup (rs.map lwKey)

/-- `Total_Lane_Volume` of a (lane, week) key: the sum of `Container Count`
over every record of the group, computed by the
`groupby(['Lane', 'Week Number'])['Container Count'].sum()` /
merge step. -/
def laneWeekVolume (rs : List Record) (lw : String × Int) : Rat :=
  ((rs.filter fun r => lwKey r = lw).map Record.containerCount).sum

/-- A placeholder record; only ever produced on an empty group, which the
callers rule out. -/
def defaultRecord : Record :=
  { lane := "", week := 0, scac := "", baseRate := 0, perfScore := none,
    containerCount := 0, port := "", facility := "" }

/-- The `groupby(['Lane','Week Number','Dray SCAC(FL)']).agg(...)` plus
`Total_Lane_Volume` merge of `perform_optimization` and
`get_optimization_results`: one `Offer` per distinct (lane, week, carrier)
key, taking `first` for rate, performance, port and facility, `sum` for the
carriers own container count, and stamping the groups total volume. -/
def aggregate (rs : List Record) : List Offer :=
  (firstDedup (rs.map lwcKey)).map fun k =>
    let g := rs.filter fun r => lwcKey r = k
    let r0 := g.headD defaultRecord
    { lane := k.1, week := k.2.1, scac := k.2.2,
      baseRate := r0.baseRate, perfScore := r0.perfScore.getD 0,
      containerCount := (g.map Record.containerCount).sum,
      port := r0.port, facility := r0.facility,
      totalLaneVolume := laneWeekVolume rs (k.1, k.2.1) }

/-- The (lane, week) key of an offer row. -/
def lwKeyO (o : Offer) : String × Int := (o.lane, o.week)

theorem totalLaneVolume_of_mem_aggregate {rs : List Record} {o : Offer}
    (h : o ∈ aggregate rs) : o.totalLaneVolume = laneWeekVolume rs (lwKeyO o) := by
  rcases List.mem_map.1 h with ⟨k, _, rfl⟩
  rfl

/-- `column.max()` of a nonempty pandas column (the optimizer only takes it on
nonempty frames; the empty case is arbitrary). -/
def listMax : List Rat → Rat
  | [] => 0
  | x :: xs => xs.foldl max x

/-- `column.min()` of a nonempty pandas column. -/
def listMin : List Rat → Rat
  | [] => 0
  | x :: xs => xs.foldl min x

theorem le_foldl_max (xs : List Rat) (a : Rat) : a ≤ xs.foldl max a := by
  induction xs generalizing a with
  | nil => exact le_refl a
  | cons x xs ih => exact le_trans (le_max_left a x) (ih (max a x))

theorem foldl_min_le (xs : List Rat) (a : Rat) : xs.foldl min a ≤ a := by
  induction xs generalizing a with
  | nil => exact le_refl a
  | cons x xs ih => exact le_trans (ih (min a x)) (min_le_left a x)

theorem mem_le_foldl_max {x : Rat} (xs : List Rat) (a : Rat) (h : x ∈ xs) :
    x ≤ xs.foldl max a := by
  induction xs generalizing a with
  | nil => cases h
  | cons z zs ih =>
    rcases List.mem_cons.1 h with rfl | hmem
    · exact le_trans (le_max_right a x) (le_foldl_max zs (max a x))
    · exact ih (max a z) hmem

theorem foldl_min_le_mem {x : Rat} (xs : List Rat) (a : Rat) (h : x ∈ xs) :
    xs.foldl min a ≤ x := by
  induction xs generalizing a with
  | nil => cases h
  | cons z zs ih =>
    rcases List.mem_cons.1 h with rfl | hmem
    · exact le_trans (foldl_min_le zs (min a x)) (min_le_right a x)
    · exact ih (min a z) hmem

theorem le_listMax {x : Rat} {l : List Rat} (h : x ∈ l) : x ≤ listMax l := by
  cases l with
  | nil => cases h
  | cons y ys =>
    rcases List.mem_cons.1 h with rfl | hmem
    · exact le_foldl_max ys x
    · exact mem_le_foldl_max ys y hmem

theorem listMin_le {x : Rat} {l : List Rat} (h : x ∈ l) : listMin l ≤ x := by
  cases l with
  | nil => cases h
  | cons y ys =>
    rcases List.mem_cons.1 h with rfl | hmem
    · exact foldl_min_le ys x
    · exact foldl_min_le_mem ys y hmem

theorem listMin_le_listMax {l : List Rat} (h : l ≠ []) : listMin l ≤ listMax l := by
  obtain ⟨x, xs, rfl⟩ := List.exists_cons_of_ne_nil h
  exact le_trans (listMin_le (List.mem_cons_self x xs)) (le_listMax (List.mem_cons_self x xs))

theorem foldl_max_mem (xs : List Rat) (a : Rat) : xs.foldl max a ∈ a :: xs := by
  induction xs generalizing a with
  | nil => simp [List.foldl]
  | cons z zs ih =>
    simp only [List.foldl]
    rcases List.mem_cons.1 (ih (max a z)) with heq | hmem
    · rw [heq]
      rcases max_choice a z with h1 | h1 <;> rw [h1] <;> simp
    · exact List.mem_cons_of_mem _ (List.mem_cons_of_mem _ hmem)

theorem foldl_min_mem (xs : List Rat) (a : Rat) : xs.foldl min a ∈ a :: xs := by
  induction xs generalizing a with
  | nil => simp [List.foldl]
  | cons z zs ih =>
    simp only [List.foldl]
    rcases List.mem_cons.1 (ih (min a z)) with heq | hmem
    · rw [heq]
      rcases min_choice a z with h1 | h1 <;> rw [h1] <;> simp
    · exact List.mem_cons_of_mem _ (List.mem_cons_of_mem _ hmem)

theorem listMax_mem {l : List Rat} (h : l ≠ []) : listMax l ∈ l := by
  obtain ⟨x, xs, rfl⟩ := List.exists_cons_of_ne_nil h
  exact foldl_max_mem xs x

theorem listMin_mem {l : List Rat} (h : l ≠ []) : listMin l ∈ l := by
  obtain ⟨x, xs, rfl⟩ := List.exists_cons_of_ne_nil h
  exact foldl_min_mem xs x

/-- `lane_week_carriers['Base Rate'].max()` in `setup_optimization_objective`:
global over all offers of the run, not per group. -/
def max_rate (offers : List Offer) : Rat := listMax (offers.map Offer.baseRate)

/-- `lane_week_carriers['Base Rate'].min()`. -/
def min_rate (offers : List Offer) : Rat := listMin (offers.map Offer.baseRate)

/-- `lane_week_carriers['Performance_Score'].max()`. -/
def max_perf (offers : List Offer) : Rat := listMax (offers.map Offer.perfScore)

/-- `lane_week_carriers['Performance_Score'].min()`. -/
def min_perf (offers : List Offer) : Rat := listMin (offers.map Offer.perfScore)

/-- `rate_range = max_rate - min_rate if max_rate != min_rate else 1`. -/
def rate_range (offers : List Offer) : Rat :=
  if max_rate offers ≠ min_rate offers then max_rate offers - min_rate offers else 1

/-- `perf_range = max_perf - min_perf if max_perf != min_perf else 1`. -/
def perf_range (offers : List Offer) : Rat :=
  if max_perf offers ≠ min_perf offers then max_perf offers - min_perf offers else 1

/-- `norm_cost = (row['Base Rate'] - min_rate) / rate_range`. -/
def norm_cost (offers : List Offer) (o : Offer) : Rat :=
  (o.baseRate - min_rate offers) / rate_range offers

/-- `norm_performance = (row['Performance_Score'] - min_perf) / perf_range`. -/
def norm_performance (offers : List Offer) (o : Offer) : Rat :=
  (o.perfScore - min_perf offers) / perf_range offers

/-- Weight renormalization of `setup_optimization_objective`: divide by the
total when it is positive, otherwise fall back to a half/half split. -/
def norm_weights (cost_weight performance_weight : Rat) : Rat × Rat :=
  if 0 < cost_weight + performance_weight then
    (cost_weight / (cost_weight + performance_weight),
      performance_weight / (cost_weight + performance_weight))
  else (1 / 2, 1 / 2)

/-- The objective coefficient a row contributes per unit of its binary
variable: `cost_component - perf_component`, both scaled by the groups
`Total_Lane_Volume`. -/
def objective_coeff (offers : List Offer) (cost_weight performance_weight : Rat)
    (o : Offer) : Rat :=
  (norm_weights cost_weight performance_weight).1 * norm_cost offers o * o.totalLaneVolume
    - (norm_weights cost_weight performance_weight).2 * norm_performance offers o
      * o.totalLaneVolume

/-- Indices of the rows of a (lane, week) group, the iteration of
`lane_week_carriers.groupby(['Lane', 'Week Number'])` in
`add_optimization_constraints`. -/
def groupIdx (offers : List Offer) (lw : String × Int) : Finset (Fin offers.length) :=
  Finset.univ.filter fun i => lwKeyO (offers.get i) = lw

/-- Number of selected rows of a group under a 0/1 assignment. -/
def selCount (offers : List Offer) (lw : String × Int)
    (f : Fin offers.length → Bool) : Nat :=
  ((groupIdx offers lw).filter fun i => f i = true).card

/-- The distinct (lane, week) keys of the aggregated offer rows. -/
def lwKeysO (offers : List Offer) : List (String × Int) :=
  firstDedup (offers.map lwKeyO)

/-- The constraint set of `add_optimization_constraints`: for a group with
more than one row the binary variables sum to 1, for a singleton group the
single variable is forced to 1. -/
def constraintsHold (offers : List Offer) (f : Fin offers.length → Bool) : Prop :=
  ∀ lw ∈ lwKeysO offers,
    if 1 < (groupIdx offers lw).card then selCount offers lw f = 1
    else ∀ i ∈ groupIdx offers lw, f i = true

/-- The objective of `setup_optimization_objective`:
`lpSum(choice_var * (cost_component - perf_component))` over every row. -/
def objective (offers : List Offer) (cost_weight performance_weight : Rat)
    (f : Fin offers.length → Bool) : Rat :=
  ∑ i : Fin offers.length,
    (if f i = true then objective_coeff offers cost_weight performance_weight (offers.get i)
      else 0)

/-- The solution concept of the binary integer program solved by
`prob.solve`: a feasible assignment of minimum objective. -/
def isOptimal (offers : List Offer) (cost_weight performance_weight : Rat)
    (f : Fin offers.length → Bool) : Prop :=
  constraintsHold offers f ∧
    ∀ g : Fin offers.length → Bool, constraintsHold offers g →
      objective offers cost_weight performance_weight f
        ≤ objective offers cost_weight performance_weight g

theorem mem_groupIdx {offers : List Offer} {lw : String × Int}
    {i : Fin offers.length} : i ∈ groupIdx offers lw ↔ lwKeyO (offers.get i) = lw := by
  simp [groupIdx]

theorem lwKeyO_get_mem_keys (offers : List Offer) (i : Fin offers.length) :
    lwKeyO (offers.get i) ∈ lwKeysO offers := by
  exact mem_firstDedup.2 (List.mem_map.2 ⟨offers.get i, offers.get_mem i i.isLt, rfl⟩)

instance (offers : List Offer) (f : Fin offers.length → Bool) :
    Decidable (constraintsHold offers f) :=
  inferInstanceAs (Decidable (∀ lw ∈ lwKeysO offers,
    if 1 < (groupIdx offers lw).card then selCount offers lw f = 1
    else ∀ i ∈ groupIdx offers lw, f i = true))

instance (offers : List Offer) (cost_weight performance_weight : Rat)
    (f : Fin offers.length → Bool) :
    Decidable (isOptimal offers cost_weight performance_weight f) :=
  inferInstanceAs (Decidable (constraintsHold offers f ∧
    ∀ g : Fin offers.length → Bool, constraintsHold offers g →
      objective offers cost_weight performance_weight f
        ≤ objective offers cost_weight performance_weight g))

/-- Outcome of `run_optimization` up to the external solve: the three early
returns (missing performance error with its record count, the empty-data
error, the no-multi-carrier warning) or proceeding to `perform_optimization`
on the aggregated offers. -/
inductive RunOutcome where
  | dataIncomplete (count : Nat)
  | noData
  | noMultiCarrier
  | proceed (offers : List Offer)
  deriving DecidableEq

/-- The (lane, week) keys whose raw-record group has more than one row:
`lane_week_counts[lane_week_counts > 1]`. -/
def multiCarrierKeys (rs : List Record) : List (String × Int) :=
  (lwKeysR rs).filter fun lw => 1 < (rs.filter fun r => lwKey r = lw).length

/-- The (lane, week) keys whose raw-record group has exactly one row:
`lane_week_counts[lane_week_counts == 1]`. -/
def singleCarrierKeys (rs : List Record) : List (String × Int) :=
  (lwKeysR rs).filter fun lw => (rs.filter fun r => lwKey r = lw).length = 1

/-- The early-return logic of `run_optimization`: the missing-performance
check (an error reporting the number of affected rows), the empty-data
check (an error), the multiple-carrier check (a warning, returning with no
solution), and otherwise the hand-off to `perform_optimization`. -/
def run_optimization (rs : List Record) : RunOutcome :=
  if 0 < rs.countP fun r => r.perfScore.isNone then
    RunOutcome.dataIncomplete (rs.countP fun r => r.perfScore.isNone)
  else if rs.length = 0 then RunOutcome.noData
  else if (multiCarrierKeys rs).length = 0 then RunOutcome.noMultiCarrier
  else RunOutcome.proceed (aggregate rs)

/-- Weight resolution of `get_optimization_results` for `cost_weight`: an
explicit argument wins, else the session value stored by a prior run, else
the default `0.7`. -/
def resolve_cost_weight (arg : Option Rat) (session : SessionWeights) : Rat :=
  match arg, session.optimization_cost_weight with
  | none, some s => s
  | none, none => 7 / 10
  | some w, _ => w

/-- Weight resolution of `get_optimization_results` for
`performance_weight`, defaulting to `0.3`. -/
def resolve_performance_weight (arg : Option Rat) (session : SessionWeights) : Rat :=
  match arg, session.optimization_performance_weight with
  | none, some s => s
  | none, none => 3 / 10
  | some w, _ => w

/-- The result rows appended for the selected offers of the solved
multi-carrier subproblem (`varValue > 0.5`): volume is the groups
`Total_Lane_Volume` and `Total Rate` is `Base Rate * Total_Lane_Volume`. -/
def selected_assignments (offers : List Offer) (sel : Fin offers.length → Bool) :
    List Assignment :=
  ((List.finRange offers.length).filter fun i => sel i = true).map fun i =>
    let o := offers.get i
    { port := o.port, lane := o.lane, week := o.week, facility := o.facility,
      scac := o.scac, containerCount := o.totalLaneVolume, baseRate := o.baseRate,
      perfScore := o.perfScore, totalRate := o.baseRate * o.totalLaneVolume }

/-- The result row appended for a single-carrier (lane, week) group: its only
record, with the groups summed container count. -/
def single_carrier_assignment (rs : List Record) (lw : String × Int) : Assignment :=
  let g := rs.filter fun r => lwKey r = lw
  let r := g.headD defaultRecord
  let total := (g.map Record.containerCount).sum
  { port := r.port, lane := lw.1, week := lw.2, facility := r.facility,
    scac := r.scac, containerCount := total, baseRate := r.baseRate,
    perfScore := r.perfScore.getD 0, totalRate := r.baseRate * total }

/-- The raw records belonging to multi-carrier (lane, week) groups, the
`multi_carrier_data` frame of `get_optimization_results`. -/
def multi_carrier_data (rs : List Record) : List Record :=
  rs.filter fun r => lwKey r ∈ multiCarrierKeys rs

/-- `get_optimization_results`: resolve the weights, fail on missing
performance or empty data, solve the aggregated multi-carrier subproblem
through the solver (a parameter standing for the external CBC call, `none`
meaning a non-Optimal status), append the single-carrier groups, and return
`none` when no assignment was produced. -/
def get_optimization_results (rs : List Record)
    (cost_weight performance_weight : Option Rat) (session : SessionWeights)
    (solver : (offers : List Offer) → Rat → Rat → Option (Fin offers.length → Bool)) :
    Option (List Assignment) :=
  let cw := resolve_cost_weight cost_weight session
  let pw := resolve_performance_weight performance_weight session
  if 0 < rs.countP fun r => r.perfScore.isNone then none
  else if rs.length = 0 then none
  else
    let offers := aggregate (multi_carrier_data rs)
    let multiPart : Option (List Assignment) :=
      if 0 < (multiCarrierKeys rs).length then
        match solver offers cw pw with
        | some sel => some (selected_assignments offers sel)
        | none => none
      else some []
    match multiPart with
    | none => none
    | some ms =>
      let all := ms ++ (singleCarrierKeys rs).map (single_carrier_assignment rs)
      if 0 < all.length then some all else none

/-- Normalized cost exactly as the specification words it: the min-max
rescale `(rate - minRate) / (maxRate - minRate)`, or `0` for every offer when
`maxRate == minRate`. Stated for comparison with the source-side
`norm_cost`. -/
def specNormCost (offers : List Offer) (o : Offer) : Rat :=
  if max_rate offers = min_rate offers then 0
  else (o.baseRate - min_rate offers) / (max_rate offers - min_rate offers)

/-- Normalized performance exactly as the specification words it. -/
def specNormPerf (offers : List Offer) (o : Offer) : Rat :=
  if max_perf offers = min_perf offers then 0
  else (o.perfScore - min_perf offers) / (max_perf offers - min_perf offers)

/-- Weight normalization exactly as the specification words it: make the two
weights sum to 1, falling back to a half/half split when both inputs are
zero. -/
def specWeights (cost_weight performance_weight : Rat) : Rat × Rat :=
  if cost_weight = 0 ∧ performance_weight = 0 then (1 / 2, 1 / 2)
  else (cost_weight / (cost_weight + performance_weight),
    performance_weight / (cost_weight + performance_weight))

/-- The per-offer scalar score exactly as the specification words it:
normalized cost weight times normalized cost times volume, minus normalized
performance weight times normalized performance times volume. -/
def specScore (offers : List Offer) (cost_weight performance_weight : Rat)
    (o : Offer) : Rat :=
  (specWeights cost_weight performance_weight).1 * specNormCost offers o
      * o.totalLaneVolume
    - (specWeights cost_weight performance_weight).2 * specNormPerf offers o
      * o.totalLaneVolume

theorem min_rate_le {offers : List Offer} {o : Offer} (h : o ∈ offers) :
    min_rate offers ≤ o.baseRate :=
  listMin_le (List.mem_map.2 ⟨o, h, rfl⟩)

theorem le_max_rate {offers : List Offer} {o : Offer} (h : o ∈ offers) :
    o.baseRate ≤ max_rate offers :=
  le_listMax (List.mem_map.2 ⟨o, h, rfl⟩)

theorem min_perf_le {offers : List Offer} {o : Offer} (h : o ∈ offers) :
    min_perf offers ≤ o.perfScore :=
  listMin_le (List.mem_map.2 ⟨o, h, rfl⟩)

theorem le_max_perf {offers : List Offer} {o : Offer} (h : o ∈ offers) :
    o.perfScore ≤ max_perf offers :=
  le_listMax (List.mem_map.2 ⟨o, h, rfl⟩)

theorem norm_cost_eq_spec {offers : List Offer} {o : Offer} (h : o ∈ offers) :
    norm_cost offers o = specNormCost offers o := by
  unfold norm_cost specNormCost rate_range
  by_cases hr : max_rate offers = min_rate offers
  · have hle : o.baseRate ≤ min_rate offers := hr ▸ le_max_rate h
    have heq : o.baseRate = min_rate offers := le_antisymm hle (min_rate_le h)
    rw [if_neg (by simpa using hr), if_pos hr, heq, sub_self, zero_div]
  · rw [if_pos hr, if_neg hr]

theorem norm_performance_eq_spec {offers : List Offer} {o : Offer}
    (h : o ∈ offers) : norm_performance offers o = specNormPerf offers o := by
  unfold norm_performance specNormPerf perf_range
  by_cases hp : max_perf offers = min_perf offers
  · have hle : o.perfScore ≤ min_perf offers := hp ▸ le_max_perf h
    have heq : o.perfScore = min_perf offers := le_antisymm hle (min_perf_le h)
    rw [if_neg (by simpa using hp), if_pos hp, heq, sub_self, zero_div]
  · rw [if_pos hp, if_neg hp]

theorem norm_weights_eq_spec {cost_weight performance_weight : Rat}
    (hc : 0 ≤ cost_weight) (hp : 0 ≤ performance_weight) :
    norm_weights cost_weight performance_weight
      = specWeights cost_weight performance_weight := by
  unfold norm_weights specWeights
  by_cases hz : cost_weight = 0 ∧ performance_weight = 0
  · rw [if_pos hz, hz.1, hz.2]
    norm_num
  · have hpos : 0 < cost_weight + performance_weight := by
      rcases lt_or_eq_of_le hc with h1 | h1
      · exact add_pos_of_pos_of_nonneg h1 hp
      · rcases lt_or_eq_of_le hp with h2 | h2
        · exact add_pos_of_nonneg_of_pos hc h2
        · exact absurd ⟨h1.symm, h2.symm⟩ hz
    rw [if_pos hpos, if_neg hz]

/-- C10: when `get_optimization_results` is called with no weight arguments
and no weights are stored in the session, it resolves the weights to the
default pair `cost_weight = 0.7`, `performance_weight = 0.3`, and its result
is the one computed with that pair. -/
theorem c10_default_weights (rs : List Record)
    (solver : (offers : List Offer) → Rat → Rat → Option (Fin offers.length → Bool)) :
    resolve_cost_weight none ⟨none, none⟩ = 7 / 10 ∧
    resolve_performance_weight none ⟨none, none⟩ = 3 / 10 ∧
    get_optimization_results rs none none ⟨none, none⟩ solver
      = get_optimization_results rs (some (7 / 10)) (some (3 / 10)) ⟨none, none⟩
          solver :=
  ⟨rfl, rfl, rfl⟩

/-- C8 counterexample: on zero records the code does not return an empty
Solution; `run_optimization` takes the `No data` error branch and
`get_optimization_results` returns `None`. -/
theorem c8_counterexample :
    run_optimization [] = RunOutcome.noData ∧
    get_optimization_results [] none none ⟨none, none⟩ (fun _ _ _ => none)
      = none :=
  ⟨rfl, rfl⟩

/-- C8 amended: for the input consisting of zero offers the optimizer
produces no Solution at all: `run_optimization` reports the no-data error
and `get_optimization_results` returns `None`, for every weight
configuration, session state and solver. -/
theorem c8_amended_empty_input (cost_weight performance_weight : Option Rat)
    (session : SessionWeights)
    (solver : (offers : List Offer) → Rat → Rat → Option (Fin offers.length → Bool)) :
    run_optimization [] = RunOutcome.noData ∧
    get_optimization_results [] cost_weight performance_weight session solver
      = none :=
  ⟨rfl, rfl⟩

/-- C5: an input with at least one record of missing performance fails the
whole run: `run_optimization` returns the data-incomplete error carrying the
count of affected records, and `get_optimization_results` returns `None`;
no record is dropped to continue. -/
theorem c5_missing_performance (rs : List Record)
    (h : 0 < rs.countP fun r => r.perfScore.isNone)
    (cost_weight performance_weight : Option Rat) (session : SessionWeights)
    (solver : (offers : List Offer) → Rat → Rat → Option (Fin offers.length → Bool)) :
    run_optimization rs
        = RunOutcome.dataIncomplete (rs.countP fun r => r.perfScore.isNone) ∧
    get_optimization_results rs cost_weight performance_weight session solver
      = none := by
  constructor
  · unfold run_optimization
    rw [if_pos h]
  · unfold get_optimization_results
    simp only [if_pos h]

/-- Input for the C5 witness: a single record with null performance. -/
def c5wRecs : List Record :=
  [{ lane := "L1", week := 1, scac := "A", baseRate := 5, perfScore := none,
      containerCount := 1, port := "P", facility := "F" }]

theorem c5_missing_performance_witness :
    run_optimization c5wRecs
        = RunOutcome.dataIncomplete (c5wRecs.countP fun r => r.perfScore.isNone) ∧
    get_optimization_results c5wRecs none none ⟨none, none⟩ (fun _ _ _ => none)
      = none :=
  c5_missing_performance c5wRecs (by decide) none none ⟨none, none⟩
    (fun _ _ _ => none)

/-- C9: whenever the integer-program solve over the multi-carrier groups
does not report an Optimal status, `get_optimization_results` returns `None`
rather than a partial result of the single-carrier assignments. -/
theorem c9_failed_solve_returns_none (rs : List Record)
    (cost_weight performance_weight : Option Rat) (session : SessionWeights)
    (solver : (offers : List Offer) → Rat → Rat → Option (Fin offers.length → Bool))
    (hm : 0 < (multiCarrierKeys rs).length)
    (hs : solver (aggregate (multi_carrier_data rs))
        (resolve_cost_weight cost_weight session)
        (resolve_performance_weight performance_weight session) = none) :
    get_optimization_results rs cost_weight performance_weight session solver
      = none := by
  unfold get_optimization_results
  by_cases h1 : 0 < rs.countP fun r => r.perfScore.isNone
  · simp only [if_pos h1]
  · by_cases h2 : rs.length = 0
    · simp only [if_neg h1, if_pos h2]
    · simp only [if_neg h1, if_neg h2, if_pos hm, hs]

/-- Input for the C9 witness: lane `L1` has two carriers (a multi-carrier
group), lane `L2` has one (a single-carrier group that could have been
assigned without solving). -/
def c9wRecs : List Record :=
  [{ lane := "L1", week := 1, scac := "A", baseRate := 5, perfScore := some (1 / 2),
      containerCount := 1, port := "P", facility := "F" },
   { lane := "L1", week := 1, scac := "B", baseRate := 4, perfScore := some (3 / 4),
      containerCount := 2, port := "P", facility := "F" },
   { lane := "L2", week := 1, scac := "C", baseRate := 6, perfScore := some (1 / 4),
      containerCount := 3, port := "P", facility := "F" }]

theorem c9_failed_solve_returns_none_witness :
    get_optimization_results c9wRecs none none ⟨none, none⟩ (fun _ _ _ => none)
      = none :=
  c9_failed_solve_returns_none c9wRecs none none ⟨none, none⟩ (fun _ _ _ => none)
    (by decide) rfl

/-- C2: for every offer of an optimization run, the objective coefficient
attached to its binary variable equals the specification formula: normalized
cost weight times min-max normalized cost times volume, minus normalized
performance weight times min-max normalized performance times volume, with
the min-max bounds taken globally over all offers of the run, not per
(lane, week) group. -/
theorem c2_objective_coeff_matches_spec (offers : List Offer)
    (cost_weight performance_weight : Rat) (o : Offer) (ho : o ∈ offers)
    (hc : 0 ≤ cost_weight) (hp : 0 ≤ performance_weight) :
    objective_coeff offers cost_weight performance_weight o
      = specScore offers cost_weight performance_weight o := by
  unfold objective_coeff specScore
  rw [norm_cost_eq_spec ho, norm_performance_eq_spec ho,
    norm_weights_eq_spec hc hp]

/-- Offers for the C2 witness. -/
def c2wOffers : List Offer :=
  [{ lane := "L1", week := 1, scac := "A", baseRate := 500, perfScore := 6 / 10,
      containerCount := 10, port := "P", facility := "F", totalLaneVolume := 10 },
   { lane := "L1", week := 1, scac := "B", baseRate := 450, perfScore := 9 / 10,
      containerCount := 10, port := "P", facility := "F", totalLaneVolume := 10 }]

theorem c2_objective_coeff_matches_spec_witness :
    objective_coeff c2wOffers (7 / 10) (3 / 10)
        { lane := "L1", week := 1, scac := "A", baseRate := 500,
          perfScore := 6 / 10, containerCount := 10, port := "P", facility := "F",
          totalLaneVolume := 10 }
      = specScore c2wOffers (7 / 10) (3 / 10)
        { lane := "L1", week := 1, scac := "A", baseRate := 500,
          perfScore := 6 / 10, containerCount := 10, port := "P", facility := "F",
          totalLaneVolume := 10 } :=
  c2_objective_coeff_matches_spec c2wOffers (7 / 10) (3 / 10) _ (by decide)
    (by decide) (by decide)

/-- C7: when every offer of the run carries the same rate, the normalized
cost is 0 for every offer whatever the weights are, and the objective
coefficient degenerates to the pure performance term, so the choice within
each group depends only on performance. -/
theorem c7_identical_rates (offers : List Offer)
    (cost_weight performance_weight : Rat) (o : Offer) (ho : o ∈ offers)
    (hall : ∀ o1 ∈ offers, ∀ o2 ∈ offers, Offer.baseRate o1 = Offer.baseRate o2) :
    norm_cost offers o = 0 ∧
    objective_coeff offers cost_weight performance_weight o
      = -((norm_weights cost_weight performance_weight).2
          * norm_performance offers o * o.totalLaneVolume) := by
  have hmm : max_rate offers = min_rate offers := by
    have hne : offers.map Offer.baseRate ≠ [] := by
      intro hl
      rw [List.map_eq_nil_iff] at hl
      subst hl
      cases ho
    rcases List.mem_map.1 (listMax_mem hne) with ⟨a, ha, hae⟩
    rcases List.mem_map.1 (listMin_mem hne) with ⟨b, hb, hbe⟩
    show listMax (offers.map Offer.baseRate) = listMin (offers.map Offer.baseRate)
    rw [← hae, ← hbe]
    exact hall a ha b hb
  have hnc : norm_cost offers o = 0 := by
    rw [norm_cost_eq_spec ho]
    unfold specNormCost
    rw [if_pos hmm]
  refine ⟨hnc, ?_⟩
  unfold objective_coeff
  rw [hnc]
  ring

/-- Offers for the C7 witness: three offers, all with rate 450. -/
def c7wOffers : List Offer :=
  [{ lane := "L1", week := 1, scac := "A", baseRate := 450, perfScore := 6 / 10,
      containerCount := 10, port := "P", facility := "F", totalLaneVolume := 10 },
   { lane := "L1", week := 1, scac := "B", baseRate := 450, perfScore := 9 / 10,
      containerCount := 10, port := "P", facility := "F", totalLaneVolume := 10 },
   { lane := "L2", week := 2, scac := "C", baseRate := 450, perfScore := 2 / 10,
      containerCount := 5, port := "P", facility := "F", totalLaneVolume := 5 }]

theorem c7_identical_rates_witness :
    norm_cost c7wOffers
        { lane := "L1", week := 1, scac := "A", baseRate := 450,
          perfScore := 6 / 10, containerCount := 10, port := "P", facility := "F",
          totalLaneVolume := 10 }
      = 0 ∧
    objective_coeff c7wOffers (7 / 10) (3 / 10)
        { lane := "L1", week := 1, scac := "A", baseRate := 450,
          perfScore := 6 / 10, containerCount := 10, port := "P", facility := "F",
          totalLaneVolume := 10 }
      = -((norm_weights (7 / 10) (3 / 10)).2
          * norm_performance c7wOffers
            { lane := "L1", week := 1, scac := "A", baseRate := 450,
              perfScore := 6 / 10, containerCount := 10, port := "P",
              facility := "F", totalLaneVolume := 10 }
          * (10 : Rat)) :=
  c7_identical_rates c7wOffers (7 / 10) (3 / 10) _ (by decide) (by decide)

theorem exists_mem_groupIdx {offers : List Offer} {lw : String × Int}
    (hlw : lw ∈ lwKeysO offers) : ∃ i, i ∈ groupIdx offers lw := by
  rcases List.mem_map.1 (mem_firstDedup.1 hlw) with ⟨o, hom, rfl⟩
  rcases List.mem_iff_get.1 hom with ⟨i, rfl⟩
  exact ⟨i, mem_groupIdx.2 rfl⟩

theorem selCount_eq_one_of_constraints {offers : List Offer}
    {f : Fin offers.length → Bool} (hf : constraintsHold offers f)
    {lw : String × Int} (hlw : lw ∈ lwKeysO offers) :
    selCount offers lw f = 1 := by
  have h := hf lw hlw
  by_cases hc : 1 < (groupIdx offers lw).card
  · rw [if_pos hc] at h
    exact h
  · rw [if_neg hc] at h
    rcases exists_mem_groupIdx hlw with ⟨i, hi⟩
    have h1 : 0 < (groupIdx offers lw).card := Finset.card_pos.2 ⟨i, hi⟩
    unfold selCount
    rw [Finset.filter_true_of_mem h]
    omega

/-- C1: under the constraint set built by `add_optimization_constraints`
(sum of the binary group variables equal to 1, a singleton group forced
to 1), every (lane, week) group of the aggregated offers has exactly one
selected offer, and any selected offer carries as volume the sum of the
per-record `Container Count` of the entire (lane, week) group of the raw
input, not only the winning carriers rows. -/
theorem c1_partition (rs : List Record) (f : Fin (aggregate rs).length → Bool)
    (hf : constraintsHold (aggregate rs) f) :
    ∀ lw ∈ lwKeysO (aggregate rs),
      selCount (aggregate rs) lw f = 1 ∧
      ∀ i ∈ groupIdx (aggregate rs) lw, f i = true →
        ((aggregate rs).get i).totalLaneVolume = laneWeekVolume rs lw := by
  intro lw hlw
  refine ⟨selCount_eq_one_of_constraints hf hlw, ?_⟩
  intro i hi _
  have hmem : (aggregate rs).get i ∈ aggregate rs :=
    (aggregate rs).get_mem i i.isLt
  rw [totalLaneVolume_of_mem_aggregate hmem, mem_groupIdx.1 hi]

/-- Input for the C1 witness: lane `L1` week 1 has carriers `A` (4 boxes over
two records) and `B` (6 boxes); lane `L2` week 2 is a singleton group. -/
def c1wRecs : List Record :=
  [{ lane := "L1", week := 1, scac := "A", baseRate := 500, perfScore := some (6 / 10),
      containerCount := 3, port := "P", facility := "F" },
   { lane := "L1", week := 1, scac := "A", baseRate := 500, perfScore := some (6 / 10),
      containerCount := 1, port := "P", facility := "F" },
   { lane := "L1", week := 1, scac := "B", baseRate := 450, perfScore := some (9 / 10),
      containerCount := 6, port := "P", facility := "F" },
   { lane := "L2", week := 2, scac := "C", baseRate := 600, perfScore := some (2 / 10),
      containerCount := 20, port := "P", facility := "F" }]

/-- Selection for the C1 witness: carrier `A` on `L1` and the singleton `C`
on `L2`. -/
def c1wSel : Fin (aggregate c1wRecs).length → Bool := fun i => i.val ≠ 1

theorem c1_partition_witness :
    (selCount (aggregate c1wRecs) ("L1", 1) c1wSel = 1 ∧
      ((aggregate c1wRecs).get ⟨0, by decide⟩).totalLaneVolume
        = laneWeekVolume c1wRecs ("L1", 1)) ∧
    selCount (aggregate c1wRecs) ("L2", 2) c1wSel = 1 :=
  ⟨⟨(c1_partition c1wRecs c1wSel (by decide) ("L1", 1) (by decide)).1,
      (c1_partition c1wRecs c1wSel (by decide) ("L1", 1) (by decide)).2
        ⟨0, by decide⟩ (by decide) (by decide)⟩,
    (c1_partition c1wRecs c1wSel (by decide) ("L2", 2) (by decide)).1⟩

theorem norm_weights_scale {cost_weight performance_weight k : Rat} (hk : 0 < k) :
    norm_weights (k * cost_weight) (k * performance_weight)
      = norm_weights cost_weight performance_weight := by
  unfold norm_weights
  rw [← mul_add]
  by_cases h : 0 < cost_weight + performance_weight
  · rw [if_pos h, if_pos (mul_pos hk h),
      mul_div_mul_left cost_weight (cost_weight + performance_weight) (ne_of_gt hk),
      mul_div_mul_left performance_weight (cost_weight + performance_weight)
        (ne_of_gt hk)]
  · have hn : ¬ 0 < k * (cost_weight + performance_weight) := by
      intro hkp
      apply h
      by_contra hs
      push_neg at hs
      nlinarith
    rw [if_neg h, if_neg hn]

/-- C4: the solver result is invariant under scaling both weights by the
same positive factor: the renormalized weights coincide, hence so do the
objective values of every selection, hence so do the optimal selections.
The pair (0.7, 0.3) versus (7, 3) of the claim is the witness below. -/
theorem c4_weight_scale_invariance (offers : List Offer)
    (cost_weight performance_weight k : Rat) (hk : 0 < k)
    (f : Fin offers.length → Bool) :
    norm_weights (k * cost_weight) (k * performance_weight)
        = norm_weights cost_weight performance_weight ∧
    objective offers (k * cost_weight) (k * performance_weight) f
        = objective offers cost_weight performance_weight f ∧
    (isOptimal offers (k * cost_weight) (k * performance_weight) f
      ↔ isOptimal offers cost_weight performance_weight f) := by
  have hobj : ∀ g : Fin offers.length → Bool,
      objective offers (k * cost_weight) (k * performance_weight) g
        = objective offers cost_weight performance_weight g := by
    intro g
    unfold objective objective_coeff
    rw [norm_weights_scale hk]
  refine ⟨norm_weights_scale hk, hobj f, ?_⟩
  constructor
  · rintro ⟨h1, h2⟩
    exact ⟨h1, fun g hg => by rw [← hobj f, ← hobj g]; exact h2 g hg⟩
  · rintro ⟨h1, h2⟩
    exact ⟨h1, fun g hg => by rw [hobj f, hobj g]; exact h2 g hg⟩

theorem sum_if_exchange {n : Nat} (c : Fin n → Rat) (f : Fin n → Bool)
    (i j : Fin n) (hij : i ≠ j) (hfi : f i = true) (hfj : f j = false) :
    (∑ k, if (Function.update (Function.update f i false) j true) k = true
        then c k else 0)
      = (∑ k, if f k = true then c k else 0) - c i + c j := by
  classical
  have hi_mem : i ∈ Finset.univ.erase j :=
    Finset.mem_erase.2 ⟨hij, Finset.mem_univ i⟩
  have hg : ∀ k, k ≠ i → k ≠ j →
      (Function.update (Function.update f i false) j true) k = f k := by
    intro k hki hkj
    rw [Function.update_noteq hkj, Function.update_noteq hki]
  have e1 : (∑ k, if (Function.update (Function.update f i false) j true) k = true
        then c k else 0)
      = (if (Function.update (Function.update f i false) j true) j = true
          then c j else 0)
        + ∑ k in Finset.univ.erase j,
            (if (Function.update (Function.update f i false) j true) k = true
              then c k else 0) :=
    (Finset.add_sum_erase _ _ (Finset.mem_univ j)).symm
  have e2 : (∑ k in Finset.univ.erase j,
        (if (Function.update (Function.update f i false) j true) k = true
          then c k else 0))
      = (if (Function.update (Function.update f i false) j true) i = true
          then c i else 0)
        + ∑ k in (Finset.univ.erase j).erase i,
            (if (Function.update (Function.update f i false) j true) k = true
              then c k else 0) :=
    (Finset.add_sum_erase _ _ hi_mem).symm
  have e3 : (∑ k, if f k = true then c k else 0)
      = (if f j = true then c j else 0)
        + ∑ k in Finset.univ.erase j, (if f k = true then c k else 0) :=
    (Finset.add_sum_erase _ _ (Finset.mem_univ j)).symm
  have e4 : (∑ k in Finset.univ.erase j, (if f k = true then c k else 0))
      = (if f i = true then c i else 0)
        + ∑ k in (Finset.univ.erase j).erase i, (if f k = true then c k else 0) :=
    (Finset.add_sum_erase _ _ hi_mem).symm
  have erest : (∑ k in (Finset.univ.erase j).erase i,
        (if (Function.update (Function.update f i false) j true) k = true
          then c k else 0))
      = ∑ k in (Finset.univ.erase j).erase i, (if f k = true then c k else 0) := by
    refine Finset.sum_congr rfl ?_
    intro k hk
    have hki : k ≠ i := (Finset.mem_erase.1 hk).1
    have hkj : k ≠ j := (Finset.mem_erase.1 (Finset.mem_erase.1 hk).2).1
    rw [hg k hki hkj]
  have hgj : (Function.update (Function.update f i false) j true) j = true :=
    Function.update_same j true (Function.update f i false)
  have hgi : (Function.update (Function.update f i false) j true) i = false := by
    rw [Function.update_noteq hij, Function.update_same]
  rw [e1, e2, e3, e4, erest, hgj, hgi, hfi, hfj]
  simp only [if_true, Bool.false_eq_true, if_false]
  ring

theorem constraintsHold_exchange (offers : List Offer) (f : Fin offers.length → Bool)
    (hf : constraintsHold offers f) (i j : Fin offers.length) (hij : i ≠ j)
    (hlw : lwKeyO (offers.get i) = lwKeyO (offers.get j))
    (hfi : f i = true) (hfj : f j = false) :
    constraintsHold offers (Function.update (Function.update f i false) j true) := by
  intro lw hlwmem
  have hi_grp : i ∈ groupIdx offers (lwKeyO (offers.get i)) := mem_groupIdx.2 rfl
  have hj_grp : j ∈ groupIdx offers (lwKeyO (offers.get i)) := mem_groupIdx.2 hlw.symm
  by_cases hL : lw = lwKeyO (offers.get i)
  · subst hL
    have hcard : 1 < (groupIdx offers (lwKeyO (offers.get i))).card :=
      Finset.one_lt_card.2 ⟨i, hi_grp, j, hj_grp, hij⟩
    rw [if_pos hcard]
    have hold := hf _ hlwmem
    rw [if_pos hcard] at hold
    unfold selCount at hold ⊢
    have hiS : i ∈ (groupIdx offers (lwKeyO (offers.get i))).filter
        (fun k => f k = true) := Finset.mem_filter.2 ⟨hi_grp, hfi⟩
    obtain ⟨a, ha⟩ := Finset.card_eq_one.1 hold
    have hai : i = a := Finset.mem_singleton.1 (ha ▸ hiS)
    have hsingle : (groupIdx offers (lwKeyO (offers.get i))).filter
        (fun k => (Function.update (Function.update f i false) j true) k = true)
        = {j} := by
      apply Finset.eq_singleton_iff_unique_mem.2
      constructor
      · exact Finset.mem_filter.2
          ⟨hj_grp, Function.update_same j true (Function.update f i false)⟩
      · intro k hk
        rcases Finset.mem_filter.1 hk with ⟨hkg, hkt⟩
        by_contra hkj
        have hki : k ≠ i := by
          rintro rfl
          rw [Function.update_noteq hkj, Function.update_same] at hkt
          exact Bool.false_ne_true hkt
        rw [Function.update_noteq hkj, Function.update_noteq hki] at hkt
        have hkS : k ∈ ({a} : Finset (Fin offers.length)) :=
          ha ▸ Finset.mem_filter.2 ⟨hkg, hkt⟩
        exact hki ((Finset.mem_singleton.1 hkS).trans hai.symm)
    rw [hsingle, Finset.card_singleton]
  · have hold := hf lw hlwmem
    have hsame : ∀ k ∈ groupIdx offers lw,
        (Function.update (Function.update f i false) j true) k = f k := by
      intro k hk
      have hklw : lwKeyO (offers.get k) = lw := mem_groupIdx.1 hk
      have hki : k ≠ i := by
        rintro rfl
        exact hL hklw.symm
      have hkj : k ≠ j := by
        rintro rfl
        exact hL (hlw.trans hklw).symm
      rw [Function.update_noteq hkj, Function.update_noteq hki]
    by_cases hc : 1 < (groupIdx offers lw).card
    · rw [if_pos hc]
      rw [if_pos hc] at hold
      unfold selCount at hold ⊢
      rw [Finset.filter_congr fun k hk => by rw [hsame k hk]]
      exact hold
    · rw [if_neg hc]
      rw [if_neg hc] at hold
      intro k hk
      rw [hsame k hk]
      exact hold k hk

theorem objective_exchange (offers : List Offer)
    (cost_weight performance_weight : Rat) (f : Fin offers.length → Bool)
    (i j : Fin offers.length) (hij : i ≠ j) (hfi : f i = true)
    (hfj : f j = false) :
    objective offers cost_weight performance_weight
        (Function.update (Function.update f i false) j true)
      = objective offers cost_weight performance_weight f
        - objective_coeff offers cost_weight performance_weight (offers.get i)
        + objective_coeff offers cost_weight performance_weight (offers.get j) := by
  unfold objective
  exact sum_if_exchange
    (fun k => objective_coeff offers cost_weight performance_weight (offers.get k))
    f i j hij hfi hfj

theorem optimal_selected_min_coeff (offers : List Offer)
    (cost_weight performance_weight : Rat) (f : Fin offers.length → Bool)
    (hopt : isOptimal offers cost_weight performance_weight f)
    (i j : Fin offers.length)
    (hlw : lwKeyO (offers.get i) = lwKeyO (offers.get j)) (hfi : f i = true) :
    objective_coeff offers cost_weight performance_weight (offers.get i)
      ≤ objective_coeff offers cost_weight performance_weight (offers.get j) := by
  rcases hopt with ⟨hcon, hmin⟩
  by_cases hij : i = j
  · subst hij
    exact le_refl _
  · have hfj : f j = false := by
      by_contra hfj
      have hfj2 : f j = true := by
        revert hfj
        cases f j <;> simp
      have hlwmem : lwKeyO (offers.get i) ∈ lwKeysO offers :=
        lwKeyO_get_mem_keys offers i
      have h1 : selCount offers (lwKeyO (offers.get i)) f = 1 :=
        selCount_eq_one_of_constraints hcon hlwmem
      have hii : i ∈ (groupIdx offers (lwKeyO (offers.get i))).filter
          (fun k => f k = true) := Finset.mem_filter.2 ⟨mem_groupIdx.2 rfl, hfi⟩
      have hjj : j ∈ (groupIdx offers (lwKeyO (offers.get i))).filter
          (fun k => f k = true) :=
        Finset.mem_filter.2 ⟨mem_groupIdx.2 hlw.symm, hfj2⟩
      have h2 : 1 < ((groupIdx offers (lwKeyO (offers.get i))).filter
          (fun k => f k = true)).card :=
        Finset.one_lt_card.2 ⟨i, hii, j, hjj, hij⟩
      unfold selCount at h1
      omega
    have hcon2 := constraintsHold_exchange offers f hcon i j hij hlw hfi hfj
    have hle := hmin _ hcon2
    rw [objective_exchange offers cost_weight performance_weight f i j hij hfi hfj]
      at hle
    linarith

theorem rate_range_pos {offers : List Offer} (h : offers ≠ []) :
    0 < rate_range offers := by
  unfold rate_range
  by_cases hne : max_rate offers ≠ min_rate offers
  · rw [if_pos hne]
    have hmapne : offers.map Offer.baseRate ≠ [] := by
      intro hl
      rw [List.map_eq_nil_iff] at hl
      exact h hl
    have hminmax : min_rate offers ≤ max_rate offers := listMin_le_listMax hmapne
    have : min_rate offers < max_rate offers := lt_of_le_of_ne hminmax (Ne.symm hne)
    exact sub_pos.2 this
  · rw [if_neg hne]
    norm_num

/-- C3 amended: with costWeight 1 and performanceWeight 0, provided every
(lane, week) group carries a positive total volume (with the Aggregator
invariant that offers of one group share the group volume), every optimal
selection picks, within each group, an offer of minimal rate. -/
theorem c3_pure_cost_selects_min_rate (offers : List Offer)
    (f : Fin offers.length → Bool)
    (hvol : ∀ i j : Fin offers.length,
      lwKeyO (offers.get i) = lwKeyO (offers.get j) →
        (offers.get i).totalLaneVolume = (offers.get j).totalLaneVolume)
    (hpos : ∀ i : Fin offers.length, 0 < (offers.get i).totalLaneVolume)
    (hopt : isOptimal offers 1 0 f) :
    ∀ i j : Fin offers.length, f i = true →
      lwKeyO (offers.get i) = lwKeyO (offers.get j) →
        (offers.get i).baseRate ≤ (offers.get j).baseRate := by
  intro i j hfi hlw
  have hc := optimal_selected_min_coeff offers 1 0 f hopt i j hlw hfi
  have hw : norm_weights 1 0 = (1, 0) := by
    unfold norm_weights
    norm_num
  have hcoeff : ∀ k : Fin offers.length,
      objective_coeff offers 1 0 (offers.get k)
        = norm_cost offers (offers.get k) * (offers.get k).totalLaneVolume := by
    intro k
    unfold objective_coeff
    rw [hw]
    ring
  rw [hcoeff i, hcoeff j] at hc
  rw [← hvol i j hlw] at hc
  have hnc : norm_cost offers (offers.get i) ≤ norm_cost offers (offers.get j) :=
    le_of_mul_le_mul_right hc (hpos i)
  have hne : offers ≠ [] := by
    intro hl
    have h0 : offers.length = 0 := by
      rw [hl]
      rfl
    have hi := i.isLt
    omega
  have hR : 0 < rate_range offers := rate_range_pos hne
  unfold norm_cost at hnc
  have h2 := (div_le_div_iff_of_pos_right hR).1 hnc
  linarith

/-- Offers of the C3 counterexample: one (lane, week) group with rates 1 and
2 but total volume 0, so both objective coefficients vanish. -/
def c3cOffers : List Offer :=
  [{ lane := "L1", week := 1, scac := "A", baseRate := 1, perfScore := 1 / 2,
      containerCount := 0, port := "P", facility := "F", totalLaneVolume := 0 },
   { lane := "L1", week := 1, scac := "B", baseRate := 2, perfScore := 1 / 2,
      containerCount := 0, port := "P", facility := "F", totalLaneVolume := 0 }]

/-- Selection of the C3 counterexample: the strictly more expensive offer. -/
def c3cSel : Fin c3cOffers.length → Bool := fun i => i.val = 1

/-- C3 counterexample: with costWeight 1 and performanceWeight 0 on a zero
volume group, the selection taking the offer of strictly greater rate is
still optimal for the integer program, so the solver is not forced to pick a
minimal-rate offer of the group. -/
theorem c3_counterexample :
    isOptimal c3cOffers 1 0 c3cSel ∧
    c3cSel ⟨1, by decide⟩ = true ∧
    lwKeyO (c3cOffers.get ⟨0, by decide⟩) = lwKeyO (c3cOffers.get ⟨1, by decide⟩) ∧
    (c3cOffers.get ⟨0, by decide⟩).baseRate
      < (c3cOffers.get ⟨1, by decide⟩).baseRate :=
  ⟨by decide, by decide, by decide, by decide⟩

/-- Offers of the C3 witness: one group, rates 500 and 450, volume 10. -/
def c3wOffers : List Offer :=
  [{ lane := "L1", week := 1, scac := "A", baseRate := 500, perfScore := 6 / 10,
      containerCount := 10, port := "P", facility := "F", totalLaneVolume := 10 },
   { lane := "L1", week := 1, scac := "B", baseRate := 450, perfScore := 9 / 10,
      containerCount := 10, port := "P", facility := "F", totalLaneVolume := 10 }]

/-- Selection of the C3 witness: the cheaper offer `B`. -/
def c3wSel : Fin c3wOffers.length → Bool := fun i => i.val = 1

theorem c3_pure_cost_selects_min_rate_witness :
    (c3wOffers.get ⟨1, by decide⟩).baseRate
      ≤ (c3wOffers.get ⟨0, by decide⟩).baseRate :=
  c3_pure_cost_selects_min_rate c3wOffers c3wSel (by decide) (by decide)
    (by decide) ⟨1, by decide⟩ ⟨0, by decide⟩ (by decide) (by decide)

/-- Offers for the C4 witness: one two-carrier group. -/
def c4wOffers : List Offer :=
  [{ lane := "L1", week := 1, scac := "A", baseRate := 500, perfScore := 6 / 10,
      containerCount := 10, port := "P", facility := "F", totalLaneVolume := 10 },
   { lane := "L1", week := 1, scac := "B", baseRate := 450, perfScore := 9 / 10,
      containerCount := 10, port := "P", facility := "F", totalLaneVolume := 10 }]

/-- Selection for the C4 witness. -/
def c4wSel : Fin c4wOffers.length → Bool := fun i => i.val = 1

theorem c4_weight_scale_invariance_witness :
    norm_weights (10 * (7 / 10)) (10 * (3 / 10)) = norm_weights (7 / 10) (3 / 10) ∧
    objective c4wOffers (10 * (7 / 10)) (10 * (3 / 10)) c4wSel
        = objective c4wOffers (7 / 10) (3 / 10) c4wSel ∧
    (isOptimal c4wOffers (10 * (7 / 10)) (10 * (3 / 10)) c4wSel
      ↔ isOptimal c4wOffers (7 / 10) (3 / 10) c4wSel) :=
  c4_weight_scale_invariance c4wOffers (7 / 10) (3 / 10) 10 (by decide) c4wSel

theorem multiCarrierKeys_eq_nil_of_singletons (rs : List Record)
    (h2 : ∀ lw ∈ lwKeysR rs, (rs.filter fun r => lwKey r = lw).length = 1) :
    multiCarrierKeys rs = [] := by
  unfold multiCarrierKeys
  rw [List.filter_eq_nil_iff]
  intro lw hlw
  simp only [decide_eq_true_eq]
  rw [h2 lw hlw]
  omega

theorem singleCarrierKeys_eq_keys_of_singletons (rs : List Record)
    (h2 : ∀ lw ∈ lwKeysR rs, (rs.filter fun r => lwKey r = lw).length = 1) :
    singleCarrierKeys rs = lwKeysR rs := by
  unfold singleCarrierKeys
  rw [List.filter_eq_self]
  intro lw hlw
  simp only [decide_eq_true_eq]
  exact h2 lw hlw

/-- C6 amended: on an input where every (lane, week) group consists of
exactly one record (hence of exactly one offer), `get_optimization_results`
does return the Solution forcing every singleton selected, independently of
the weights, the session and the solver; but `run_optimization` does not:
it stops at the no-multiple-carriers warning and produces no Solution. The
hypothesis is at the record level because the multiple-carrier check of
`run_optimization` counts raw rows per (lane, week), not distinct carriers:
a single-carrier group with several records is classified multi-carrier and
the run proceeds (see `run_optimization_proceeds_on_multi_record_group`
below), so only the all-one-record inputs take the warning branch. -/
theorem c6_all_singleton (rs : List Record)
    (h1 : (rs.countP fun r => r.perfScore.isNone) = 0)
    (h2 : ∀ lw ∈ lwKeysR rs, (rs.filter fun r => lwKey r = lw).length = 1)
    (h3 : rs ≠ [])
    (cost_weight performance_weight : Option Rat) (session : SessionWeights)
    (solver : (offers : List Offer) → Rat → Rat → Option (Fin offers.length → Bool)) :
    get_optimization_results rs cost_weight performance_weight session solver
        = some ((lwKeysR rs).map (single_carrier_assignment rs)) ∧
    run_optimization rs = RunOutcome.noMultiCarrier := by
  have hmulti : multiCarrierKeys rs = [] :=
    multiCarrierKeys_eq_nil_of_singletons rs h2
  have hsingle : singleCarrierKeys rs = lwKeysR rs :=
    singleCarrierKeys_eq_keys_of_singletons rs h2
  have hcount : ¬ 0 < (rs.countP fun r => r.perfScore.isNone) := by omega
  have hlen : ¬ rs.length = 0 := by
    intro h0
    exact h3 (List.length_eq_zero.1 h0)
  have hm0 : ¬ 0 < (multiCarrierKeys rs).length := by
    rw [hmulti]
    simp
  have hkeys : lwKeysR rs ≠ [] := by
    apply firstDedup_ne_nil
    intro hmap
    rw [List.map_eq_nil_iff] at hmap
    exact h3 hmap
  have hpos : 0 < ((lwKeysR rs).map (single_carrier_assignment rs)).length := by
    rw [List.length_map]
    exact List.length_pos.2 hkeys
  constructor
  · unfold get_optimization_results
    simp only [if_neg hcount, if_neg hlen, if_neg hm0, hsingle, List.nil_append]
    rw [if_pos hpos]
  · unfold run_optimization
    rw [if_neg hcount, if_neg hlen, if_pos (by rw [hmulti]; rfl)]

/-- Input for the C6 counterexample and spec scenario: a single-offer group,
lane `L2` week 5. -/
def c6cRecs : List Record :=
  [{ lane := "L2", week := 5, scac := "C", baseRate := 600, perfScore := some (2 / 10),
      containerCount := 20, port := "P", facility := "F" }]

/-- C6 counterexample: on an input whose only (lane, week) group has one
record (so one offer), `run_optimization` takes the warning branch and
returns without building or solving any problem, so the run produces no
Solution at all, contrary to the claim that a valid Solution with all
singletons selected is still returned. -/
theorem c6_counterexample :
    run_optimization c6cRecs = RunOutcome.noMultiCarrier ∧
    run_optimization c6cRecs ≠ RunOutcome.proceed (aggregate c6cRecs) := by
  exact ⟨by decide, by decide⟩

/-- A single-carrier (lane, week) group with two records: one offer after
aggregation, but the row-count check of `run_optimization` sees two rows. -/
def c6bRecs : List Record :=
  [{ lane := "L1", week := 1, scac := "A", baseRate := 500, perfScore := some (6 / 10),
      containerCount := 4, port := "P", facility := "F" },
   { lane := "L1", week := 1, scac := "A", baseRate := 500, perfScore := some (6 / 10),
      containerCount := 6, port := "P", facility := "F" }]

/-- Boundary of the C6 amendment: when a sole-carrier group has more than
one record, `run_optimization` does not take the warning branch; it counts
raw rows per (lane, week) and proceeds to build and solve the problem, even
though the group aggregates to a single offer. Hence the amended C6 is
restricted to inputs of one record per group. -/
theorem run_optimization_proceeds_on_multi_record_group :
    run_optimization c6bRecs = RunOutcome.proceed (aggregate c6bRecs) ∧
    (aggregate c6bRecs).length = 1 := by
  exact ⟨by decide, by decide⟩

/-- Input for the C6 witness: two singleton (lane, week) groups. -/
def c6wRecs : List Record :=
  [{ lane := "L1", week := 1, scac := "A", baseRate := 500, perfScore := some (6 / 10),
      containerCount := 10, port := "P", facility := "F" },
   { lane := "L2", week := 5, scac := "C", baseRate := 600, perfScore := some (2 / 10),
      containerCount := 20, port := "P", facility := "F" }]

theorem c6_all_singleton_witness :
    get_optimization_results c6wRecs none none ⟨none, none⟩ (fun _ _ _ => none)
        = some ((lwKeysR c6wRecs).map (single_carrier_assignment c6wRecs)) ∧
    run_optimization c6wRecs = RunOutcome.noMultiCarrier :=
  c6_all_singleton c6wRecs (by decide) (by decide) (by decide) none none
    ⟨none, none⟩ (fun _ _ _ => none)
